import Mathlib

/-!
Shallow embedding of lib/tasks/registrar/course_listings.py.

The embedding models the two algorithmic cores of the module, the
row-to-record assembly loop in Department.force_load and the grouped-index
helper CourseReader.__parallel_lists_to_tuple_dict, together with the
lazy-load flag pattern shared by CourseReader and Department, the
department-name pairing loop in CourseReader.force_load, and the
constructor validation in CourseReader.__init__.

Cell values coming out of the HTML tables are modelled as Option String:
the source function stripped_or_none turns a whitespace-only cell into
None, so a cell is either absent (none) or a non-empty stripped string.
Python exceptions are modelled with Except; an exception aborts the
whole operation, exactly as an uncaught Python exception would.
-/

namespace CourseListings

/-- Boolean test that tok is a prefix of l, over lists of characters. -/
def startsWithTok (tok : List Char) (l : List Char) : Bool :=
  match tok, l with
  | [], _ => true
  | _ :: _, [] => false
  | a :: as, b :: bs => if a = b then startsWithTok as bs else false

/-- Boolean substring test: models the Python expression tok in s over
character lists. -/
def containsSub (tok : List Char) : List Char → Bool
  | [] => tok.isEmpty
  | c :: rest => startsWithTok tok (c :: rest) || containsSub tok rest

/-- Models the Python expression tok in s.lower thereby lowering the
subject string first, as the source does for the var and tba tests. -/
def lowerInStr (tok : String) (s : String) : Bool :=
  containsSub tok.toList (s.toList.map Char.toLower)

/-- Models Python str.strip, removing whitespace from both ends. -/
def stripChars (l : List Char) : List Char :=
  ((l.dropWhile Char.isWhitespace).reverse.dropWhile Char.isWhitespace).reverse

/-- Models Python str.split on the newline character: every occurrence
splits, empty pieces are kept. -/
def splitNL : List Char → List (List Char)
  | [] => [[]]
  | c :: rest =>
      if c = '\n' then [] :: splitNL rest
      else
        match splitNL rest with
        | [] => [[c]]
        | h :: t => (c :: h) :: t

/-- Value of a non-empty all-digit character list, most significant first. -/
def digitsVal (l : List Char) : Option Nat :=
  match l with
  | [] => none
  | _ :: _ =>
      if l.all Char.isDigit then
        some (l.foldl (fun n c => n * 10 + (c.toNat - 48)) 0)
      else none

/-- Models the Python built-in int applied to a string holding an optional
sign and a decimal literal: surrounding whitespace is stripped, then an
optional sign is followed by a non-empty digit run; anything else raises
ValueError, modelled as none. -/
def pyInt (s : String) : Option Int :=
  match stripChars s.toList with
  | '-' :: rest => (digitsVal rest).map (fun n => -(n : Int))
  | '+' :: rest => (digitsVal rest).map (fun n => (n : Int))
  | l => (digitsVal l).map (fun n => (n : Int))

/-! ## The lazy-load pattern shared by CourseReader and Department

Both classes keep a private loaded flag, an auto_load that populates only
when the flag is still false, and a force_load that always repopulates and
then sets the flag (course_listings.py lines 114-118 and 197-198 for
CourseReader, lines 375-379 and 450 for Department). The state carries a
ghost loadCount counting how many times the expensive population ran. -/

structure LazyState (α : Type) where
  cache : Option α
  loaded : Bool
  loadCount : Nat
deriving DecidableEq

/-- Embeds CourseReader.force_load / Department.force_load as far as the
flag pattern is concerned: unconditionally repopulate the cache, set the
loaded flag, and count one more population run. -/
def force_load {α : Type} (populate : α) (s : LazyState α) : LazyState α :=
  { cache := some populate, loaded := true, loadCount := s.loadCount + 1 }

/-- Embeds CourseReader.auto_load / Department.auto_load: populate via
force_load exactly when the loaded flag is still false. -/
def auto_load {α : Type} (populate : α) (s : LazyState α) : LazyState α :=
  if s.loaded then s else force_load populate s

/-! ## Row dictionaries and the assembly loop of Department.force_load -/

/-- One row dictionary built in Department.force_load from the table
headers: each cell is none when stripped-empty, otherwise the stripped
text. Field names follow the header keys of the source: course, sect,
course title and textbooks, cred, days, period, bldg, room, ge, wm,
instructors. -/
structure Row where
  course : Option String
  sect : Option String
  title : Option String
  cred : Option String
  days : Option String
  period : Option String
  bldg : Option String
  room : Option String
  ge : Option String
  wm : Option String
  instructors : Option String
deriving DecidableEq

/-- courses.CourseMeeting as constructed in build_meeting: the day cell is
known non-empty there, the rest pass through. -/
structure CourseMeeting where
  days : String
  periods : Option String
  building : Option String
  room : Option String
deriving DecidableEq

/-- courses.Course as constructed in Department.force_load, restricted to
the fields that loop populates. -/
structure Course where
  course_code : String
  sect : Option String
  title : Option String
  credits : Int
  meetings : List CourseMeeting
  gen_ed_credit : Option String
  gordon_rule : Option String
  instructors : List String
deriving DecidableEq

/-- Python exceptions that a single primary row can raise while being
turned into a Course: AttributeError from calling a string method on a
None cell, ValueError from int on a non-numeric string. -/
inductive RowError where
  | attrError
  | valueError
deriving DecidableEq

/-- Exceptions aborting the whole assembly loop: a row-scoped parse
failure on a primary row, or the IndexError raised by
base_course_list[-1] when a meeting-bearing continuation row arrives
before any primary row; the latter is the orphan-continuation failure of
the design. -/
inductive AssembleError where
  | rowError (e : RowError)
  | orphanContinuation
deriving DecidableEq

/-- Embeds the utility function build_meeting of Department.force_load
(lines 418-422): no meeting when the day cell is empty or its lowered
text contains tba, otherwise a CourseMeeting from the four cells. -/
def build_meeting (d : Row) : Option CourseMeeting :=
  match d.days with
  | none => none
  | some ds =>
      if lowerInStr "tba" ds then none
      else some { days := ds, periods := d.period, building := d.bldg,
                  room := d.room }

/-- Embeds the credit computation of line 425: int of the cred cell,
except that a cell whose lowered text contains var yields the sentinel -1;
a missing cell raises AttributeError from the lower call, a non-numeric
cell raises ValueError from int. -/
def parseCredits : Option String → Except RowError Int
  | none => .error .attrError
  | some s =>
      if lowerInStr "var" s then .ok (-1)
      else
        match pyInt s with
        | some n => .ok n
        | none => .error .valueError

/-- Embeds the instructor computation of lines 433-434: split the cell on
newlines and strip each piece; a missing cell raises AttributeError from
the split call. -/
def parseInstructors : Option String → Except RowError (List String)
  | none => .error .attrError
  | some s =>
      .ok ((splitNL s.toList).map (fun cs => (stripChars cs).asString))

/-- Embeds the primary-row body of the loop (lines 424-435): parse the
credits, build the optional initial meeting, split the instructors, and
assemble the Course object. -/
def buildCourse (c : String) (d : Row) : Except RowError Course :=
  match parseCredits d.cred with
  | .error e => .error e
  | .ok credits =>
      match parseInstructors d.instructors with
      | .error e => .error e
      | .ok instructors =>
          .ok { course_code := c
                sect := d.sect
                title := d.title
                credits := credits
                meetings := match build_meeting d with
                            | some m => [m]
                            | none => []
                gen_ed_credit := d.ge
                gordon_rule := d.wm
                instructors := instructors }

/-- Models the statement base_course_list[-1].meetings.append(meeting):
appends the meeting to the last record of the list, or fails (IndexError)
when the list is still empty. -/
def appendMeetingLast : List Course → CourseMeeting → Option (List Course)
  | [], _ => none
  | [c], m => some [{ c with meetings := c.meetings ++ [m] }]
  | c :: c2 :: rest, m =>
      (appendMeetingLast (c2 :: rest) m).map (fun l => c :: l)

/-- One iteration of the assembly loop of Department.force_load (lines
423-439) over the accumulated base_course_list. -/
def assembleStep (acc : List Course) (d : Row) :
    Except AssembleError (List Course) :=
  match d.course with
  | some c =>
      match buildCourse c d with
      | .ok crs => .ok (acc ++ [crs])
      | .error e => .error (.rowError e)
  | none =>
      match build_meeting d with
      | none => .ok acc
      | some m =>
          match appendMeetingLast acc m with
          | some acc2 => .ok acc2
          | none => .error .orphanContinuation

/-- The assembly loop run from a given accumulated list; an exception
aborts the remaining rows, as in Python. -/
def assembleAux (acc : List Course) : List Row → Except AssembleError (List Course)
  | [] => .ok acc
  | d :: rest =>
      match assembleStep acc d with
      | .ok acc2 => assembleAux acc2 rest
      | .error e => .error e

/-- Embeds the whole row-to-record assembly of Department.force_load
(lines 417-439): fold the loop body over the row dictionaries starting
from the empty base_course_list. -/
def assemble (rows : List Row) : Except AssembleError (List Course) :=
  assembleAux [] rows

/-! ## The grouped-index helper -/

/-- Lookup in the insertion-ordered association list modelling a Python
dict. -/
def dictGet {K V : Type} [DecidableEq K] :
    List (K × List V) → K → Option (List V)
  | [], _ => none
  | (k0, vs) :: rest, k => if k0 = k then some vs else dictGet rest k

/-- One loop iteration of __parallel_lists_to_tuple_dict: fetch the list
at the key (empty when absent), append the value, store it back. A Python
dict keeps keys in insertion order, so an absent key goes to the end. -/
def dictUpd {K V : Type} [DecidableEq K]
    (d : List (K × List V)) (k : K) (v : V) : List (K × List V) :=
  match d with
  | [] => [(k, [v])]
  | (k0, vs) :: rest =>
      if k0 = k then (k0, vs ++ [v]) :: rest
      else (k0, vs) :: dictUpd rest k v

/-- Embeds CourseReader.__parallel_lists_to_tuple_dict (lines 222-245):
zip the two parallel lists and fold the dict update over the pairs. The
final tuple conversion of the source does not change the per-key value
sequences, so values stay lists here. -/
def parallel_lists_to_tuple_dict {K V : Type} [DecidableEq K]
    (list_a : List K) (list_b : List V) : List (K × List V) :=
  (list_a.zip list_b).foldl (fun d p => dictUpd d p.1 p.2) []

/-- Written from the specification text of GroupedIndex: the sequence of
all values that appeared with a given key, in their original relative
order. -/
def groupSpec {K V : Type} [DecidableEq K]
    (keys : List K) (vals : List V) (k : K) : List V :=
  (keys.zip vals).filterMap (fun p => if p.1 = k then some p.2 else none)

/-- Written from the specification text of GroupedIndex, over an already
zipped pair list: the values that appeared with a given key, in order. -/
def pairsGroup {K V : Type} [DecidableEq K]
    (l : List (K × V)) (k : K) : List V :=
  l.filterMap (fun p => if p.1 = k then some p.2 else none)

/-- Modelled from the spec: the error policy of the TableAssembler section
says the assembler must decide, through a configuration option, whether a
row-scoped parse failure skips only the offending row or aborts the whole
operation, aborting by default. No such option exists in the source; this
definition follows the words of the spec so that the claimed option can be
compared with the code. -/
def assembleConfigAux (skipBadRows : Bool) (acc : List Course) :
    List Row → Except AssembleError (List Course)
  | [] => .ok acc
  | d :: rest =>
      match assembleStep acc d with
      | .ok acc2 => assembleConfigAux skipBadRows acc2 rest
      | .error (.rowError e) =>
          if skipBadRows then assembleConfigAux skipBadRows acc rest
          else .error (.rowError e)
      | .error er => .error er

/-- Modelled from the spec: the configurable assembler run from an empty
record list. -/
def assembleConfig (skipBadRows : Bool) (rows : List Row) :
    Except AssembleError (List Course) :=
  assembleConfigAux skipBadRows [] rows

/-- Modelled from the spec: lib.tasks.courses.CourseCode, the structured
course code of the data model, a prefix of letters followed by a course
number; that module is not under src, only its use from this one is. -/
structure CourseCode where
  letters : String
  number : Nat
deriving DecidableEq

/-- Modelled from the spec: the course-code parse performed inside the
courses.CourseCode constructor, which is not under src. The data model
calls the code a structured prefix plus number and the reference table
uses three-letter codes, so the parse accepts exactly three letters
followed by a non-empty digit run and raises ValueError on any other
shape. -/
def parseCourseCode (s : String) : Except RowError CourseCode :=
  match s.toList with
  | a :: b :: c :: rest =>
      if a.isAlpha && b.isAlpha && c.isAlpha then
        match digitsVal rest with
        | some n => .ok { letters := [a, b, c].asString, number := n }
        | none => .error .valueError
      else .error .valueError
  | _ => .error .valueError

/-- Modelled from the spec: the primary-row build including the
course-code parse that the courses.Course constructor call of lines
428-434 performs after its arguments have been evaluated; the
constructor lives outside src. -/
def buildCourseChecked (c : String) (d : Row) : Except RowError Course :=
  match buildCourse c d with
  | .error e => .error e
  | .ok crs =>
      match parseCourseCode c with
      | .error e => .error e
      | .ok _ => .ok crs

/-- Modelled from the spec: one assembly iteration with the course-code
parse of the record constructor included; continuation rows behave as in
the source loop. -/
def assembleStepChecked (acc : List Course) (d : Row) :
    Except AssembleError (List Course) :=
  match d.course with
  | some c =>
      match buildCourseChecked c d with
      | .ok crs => .ok (acc ++ [crs])
      | .error e => .error (.rowError e)
  | none => assembleStep acc d

/-- Modelled from the spec: the assembly loop over the checked step; an
exception aborts the remaining rows, as in Python. -/
def assembleCheckedAux (acc : List Course) :
    List Row → Except AssembleError (List Course)
  | [] => .ok acc
  | d :: rest =>
      match assembleStepChecked acc d with
      | .ok acc2 => assembleCheckedAux acc2 rest
      | .error e => .error e

/-- Modelled from the spec: the checked assembly run from an empty record
list. -/
def assembleChecked (rows : List Row) : Except AssembleError (List Course) :=
  assembleCheckedAux [] rows

/-! ## Department construction from matched name pairs -/

/-- The name-relevant part of a Department object as constructed in
CourseReader.force_load. -/
structure DeptNames where
  name : String
  alternate_names : List String
deriving DecidableEq

/-- Embeds lines 188-196 of CourseReader.force_load for a single matched
pair: the table-side name becomes the primary name, the menu-side name
becomes the only alternate exactly when the two differ. -/
def mkDeptNames (department_menu_name : String)
    (prefix_table_name : String) : DeptNames :=
  { name := prefix_table_name
    alternate_names :=
      if department_menu_name ≠ prefix_table_name
      then [department_menu_name] else [] }

/-- Embeds the construction loop over matched_depts: one Department per
matched pair, in order. -/
def buildDepartments (matched : List (String × String)) : List DeptNames :=
  matched.map (fun p => mkDeptNames p.1 p.2)

/-! ## CourseReader construction -/

/-- Modelled from the spec: the source compares the semester argument with
the three constants of lib.tasks.courses.Semesters, a module that is not
part of this tree; the constructor spring, summer and fall stand for those
constants and other stands for any further runtime value, since Python
performs no type check on the argument. -/
inductive Semesters where
  | spring
  | summer
  | fall
  | other
deriving DecidableEq

/-- Failures of CourseReader.__init__: the two KeyError range checks of
lines 48-55, and the unbound-variable failure at line 63 when no branch of
lines 57-62 assigned month. -/
inductive InitError where
  | unavailableYear
  | webUnavailableYear
  | monthUnbound
deriving DecidableEq

/-- Embeds the month selection of lines 57-62: month is assigned only in
the three enumerated branches. -/
def monthFor : Semesters → Option String
  | .spring => some "01"
  | .summer => some "06"
  | .fall => some "08"
  | .other => none

/-- Embeds CourseReader.__init__ (lines 46-64): the two year range checks
raise KeyError first, then the base url is formatted from year, month and
the all-or-web suffix; using month there fails when no semester branch
assigned it. The constructor performs no page fetch, so the result is a
pure function of its arguments. -/
def courseReaderInit (year : Int) (semester : Semesters) (full : Bool) :
    Except InitError String :=
  if year < 2001 then .error .unavailableYear
  else if !full && year < 2005 then .error .webUnavailableYear
  else
    match monthFor semester with
    | none => .error .monthUnbound
    | some month =>
        .ok ("http://www.registrar.ufl.edu/soc/" ++ toString year ++ month
             ++ "/" ++ (if full then "all" else "web") ++ "/")

/-! ## Concrete sample rows and their assembled records -/

/-- A primary row as in the specification example for MAC2313. -/
def rowMAC : Row :=
  { course := some "MAC2313", sect := some "1", title := some "CALC 3",
    cred := some "4", days := some "MWF", period := some "4",
    bldg := some "LIT", room := some "101", ge := none, wm := none,
    instructors := some "SMITH" }

/-- A continuation row adding a Tuesday meeting. -/
def contRowT : Row :=
  { course := none, sect := none, title := none, cred := none,
    days := some "T", period := some "6", bldg := some "LIT",
    room := some "207", ge := none, wm := none, instructors := none }

/-- A continuation row whose day cell reads TBA. -/
def rowTBA : Row :=
  { course := none, sect := none, title := none, cred := none,
    days := some "TBA", period := none, bldg := none, room := none,
    ge := none, wm := none, instructors := none }

/-- A primary row whose credit cell is not numeric and not variable. -/
def badRow : Row :=
  { course := some "XXX1000", sect := some "1", title := some "BAD",
    cred := some "abc", days := none, period := none, bldg := none,
    room := none, ge := none, wm := none, instructors := some "STAFF" }

/-- A primary row whose course-code cell has no digit part, with a valid
credit cell and instructor cell. -/
def badCodeRow : Row :=
  { course := some "BAD", sect := some "1", title := some "BAD CODE",
    cred := some "3", days := none, period := none, bldg := none,
    room := none, ge := none, wm := none, instructors := some "STAFF" }

/-- A primary row with an unscheduled meeting pattern. -/
def primaryNoMeeting : Row :=
  { course := some "PHY2048", sect := some "2", title := some "PHYSICS",
    cred := some "3", days := none, period := none, bldg := none,
    room := none, ge := none, wm := none, instructors := some "JONES" }

/-- The meeting built from rowMAC. -/
def macMeeting : CourseMeeting :=
  { days := "MWF", periods := some "4", building := some "LIT",
    room := some "101" }

/-- The meeting built from contRowT. -/
def tMeeting : CourseMeeting :=
  { days := "T", periods := some "6", building := some "LIT",
    room := some "207" }

/-- The record assembled from rowMAC alone. -/
def macCourse : Course :=
  { course_code := "MAC2313", sect := some "1", title := some "CALC 3",
    credits := 4, meetings := [macMeeting], gen_ed_credit := none,
    gordon_rule := none, instructors := ["SMITH"] }

/-- The record assembled from primaryNoMeeting. -/
def phyCourse : Course :=
  { course_code := "PHY2048", sect := some "2", title := some "PHYSICS",
    credits := 3, meetings := [], gen_ed_credit := none,
    gordon_rule := none, instructors := ["JONES"] }

/-! ## Characterizing the substring test -/

/-- The prefix test holds exactly when the subject extends the token. -/
theorem startsWithTok_iff (tok l : List Char) :
    startsWithTok tok l = true ↔ ∃ t, l = tok ++ t := by
  induction tok generalizing l with
  | nil => simp [startsWithTok]
  | cons a as ih =>
    cases l with
    | nil => simp [startsWithTok]
    | cons b bs =>
      by_cases hab : a = b
      · subst hab
        simp [startsWithTok, ih]
      · simp only [startsWithTok, if_neg hab]
        constructor
        · intro h
          exact absurd h (by simp)
        · rintro ⟨t, ht⟩
          injection ht with h1 h2
          exact absurd h1 (fun h => hab h.symm)

/-- The substring test holds exactly when the subject splits around the
token; this is the case-insensitive containment wording of the
specification once the subject has been lowered. -/
theorem containsSub_iff (tok l : List Char) :
    containsSub tok l = true ↔ ∃ l1 l2, l = l1 ++ tok ++ l2 := by
  induction l with
  | nil =>
    simp only [containsSub, List.isEmpty_iff]
    constructor
    · rintro rfl
      exact ⟨[], [], rfl⟩
    · rintro ⟨l1, l2, h⟩
      have hlen := congrArg List.length h
      simp [List.length_append] at hlen
      exact List.length_eq_zero.mp (by omega)
  | cons c rest ih =>
    simp only [containsSub, Bool.or_eq_true, startsWithTok_iff, ih]
    constructor
    · rintro (⟨t, ht⟩ | ⟨l1, l2, hl⟩)
      · exact ⟨[], t, by simpa using ht⟩
      · exact ⟨c :: l1, l2, by simp [hl]⟩
    · rintro ⟨l1, l2, h⟩
      cases l1 with
      | nil =>
        left
        exact ⟨l2, by simpa using h⟩
      | cons x xs =>
        right
        rw [List.cons_append, List.cons_append] at h
        injection h with h1 h2
        exact ⟨xs, l2, by simpa using h2⟩

/-- C2: for both lazily loaded objects, CourseReader and Department, two
accessor calls without an intervening forced reload run the expensive
population exactly once; auto_load populates exactly when the loaded flag
is still false, while force_load always repopulates and sets the flag. -/
theorem lazy_load_once {α : Type} (populate : α) (s : LazyState α) :
    (auto_load populate (auto_load populate s)).loadCount
      = (auto_load populate s).loadCount ∧
    (auto_load populate s).loadCount
      = s.loadCount + (if s.loaded then 0 else 1) ∧
    (force_load populate s).loadCount = s.loadCount + 1 ∧
    (force_load populate s).loaded = true ∧
    (auto_load populate s).loaded = true := by
  cases h : s.loaded <;> simp [auto_load, force_load, h]

/-- C8: every matched pair builds a department whose primary name is the
table-side name, and whose alternates hold the menu-side name exactly
when the two names differ. -/
theorem department_names_invariant (menuName tableName : String)
    (matched : List (String × String))
    (h : (menuName, tableName) ∈ matched) :
    mkDeptNames menuName tableName ∈ buildDepartments matched ∧
    (mkDeptNames menuName tableName).name = tableName ∧
    ((mkDeptNames menuName tableName).alternate_names
       = if menuName = tableName then [] else [menuName]) ∧
    (menuName ∈ (mkDeptNames menuName tableName).alternate_names
       ↔ menuName ≠ tableName) := by
  refine ⟨List.mem_map.mpr ⟨(menuName, tableName), h, rfl⟩, rfl, ?_, ?_⟩
  · by_cases hmt : menuName = tableName <;> simp [mkDeptNames, hmt]
  · by_cases hmt : menuName = tableName <;> simp [mkDeptNames, hmt]

/-- Witness for C8 at a concrete matched pair. -/
theorem department_names_invariant_witness :
    mkDeptNames "STATISTICS" "Statistics"
      ∈ buildDepartments [("STATISTICS", "Statistics")] ∧
    (mkDeptNames "STATISTICS" "Statistics").name = "Statistics" ∧
    ((mkDeptNames "STATISTICS" "Statistics").alternate_names
       = if "STATISTICS" = "Statistics" then [] else ["STATISTICS"]) ∧
    ("STATISTICS" ∈ (mkDeptNames "STATISTICS" "Statistics").alternate_names
       ↔ "STATISTICS" ≠ "Statistics") :=
  department_names_invariant "STATISTICS" "Statistics"
    [("STATISTICS", "Statistics")] (by simp)

/-- C9: a year before 2001, or a year before 2005 with only web listings
requested, makes the constructor fail at once with the range KeyError;
the constructor embedding is a pure function of its arguments and
performs no page fetch. -/
theorem year_range_config_error (year y2 : Int) (semester s2 : Semesters)
    (full : Bool) (h1 : year < 2001) (h2 : 2001 ≤ y2) (h3 : y2 < 2005) :
    courseReaderInit year semester full = .error .unavailableYear ∧
    courseReaderInit y2 s2 false = .error .webUnavailableYear := by
  have h4 : ¬ y2 < 2001 := by omega
  constructor
  · simp [courseReaderInit, if_pos h1]
  · simp [courseReaderInit, h4, h3]

/-- Witness for C9 at concrete years. -/
theorem year_range_config_error_witness :
    courseReaderInit 1999 Semesters.fall true = .error .unavailableYear ∧
    courseReaderInit 2003 Semesters.spring false
      = .error .webUnavailableYear :=
  year_range_config_error 1999 2003 Semesters.fall Semesters.spring true
    (by decide) (by decide) (by decide)

/-- C10: the month is assigned only in the three enumerated semester
branches, so with a valid year the constructor reaches the url build
successfully exactly for those three values and fails on any other
semester value with the unbound-month failure. -/
theorem semester_month_defined (year : Int) (full : Bool)
    (s1 s2 : Semesters) (hy : 2001 ≤ year)
    (hf : full = true ∨ 2005 ≤ year) (hs2 : s2 ≠ Semesters.other) :
    ((monthFor s1).isSome ↔ s1 ≠ Semesters.other) ∧
    courseReaderInit year Semesters.other full = .error .monthUnbound ∧
    (∃ url, courseReaderInit year s2 full = .ok url) := by
  have hlt : ¬ year < 2001 := by omega
  have hweb : (!full && decide (year < 2005)) = false := by
    rcases hf with hf | hf
    · simp [hf]
    · have : ¬ year < 2005 := by omega
      simp [this]
  refine ⟨?_, ?_, ?_⟩
  · cases s1 <;> simp [monthFor]
  · simp [courseReaderInit, hlt, hweb, monthFor]
  · cases s2 with
    | other => exact absurd rfl hs2
    | spring =>
      have h5 : courseReaderInit year Semesters.spring full
          = .ok ("http://www.registrar.ufl.edu/soc/" ++ toString year
                 ++ "01" ++ "/" ++ (if full then "all" else "web") ++ "/") := by
        simp [courseReaderInit, hlt, hweb, monthFor]
      exact ⟨_, h5⟩
    | summer =>
      have h5 : courseReaderInit year Semesters.summer full
          = .ok ("http://www.registrar.ufl.edu/soc/" ++ toString year
                 ++ "06" ++ "/" ++ (if full then "all" else "web") ++ "/") := by
        simp [courseReaderInit, hlt, hweb, monthFor]
      exact ⟨_, h5⟩
    | fall =>
      have h5 : courseReaderInit year Semesters.fall full
          = .ok ("http://www.registrar.ufl.edu/soc/" ++ toString year
                 ++ "08" ++ "/" ++ (if full then "all" else "web") ++ "/") := by
        simp [courseReaderInit, hlt, hweb, monthFor]
      exact ⟨_, h5⟩

/-- Witness for C10 at a concrete year and semesters. -/
theorem semester_month_defined_witness :
    ((monthFor Semesters.spring).isSome
       ↔ Semesters.spring ≠ Semesters.other) ∧
    courseReaderInit 2011 Semesters.other true = .error .monthUnbound ∧
    (∃ url, courseReaderInit 2011 Semesters.fall true = .ok url) :=
  semester_month_defined 2011 true Semesters.spring Semesters.fall
    (by decide) (Or.inl rfl) (by decide)

/-- C4: a credit cell whose lowered text contains the token var parses to
the sentinel -1, never to a numeric parse or a numeric failure; a cell
without the token parses with the integer parser, succeeding or raising
ValueError as that parser does. -/
theorem credits_var_sentinel (s t u : String) (n : Int)
    (h1 : ∃ l1 l2, s.toList.map Char.toLower = l1 ++ ['v', 'a', 'r'] ++ l2)
    (h2 : ¬ ∃ l1 l2,
            t.toList.map Char.toLower = l1 ++ ['v', 'a', 'r'] ++ l2)
    (h3 : ¬ ∃ l1 l2,
            u.toList.map Char.toLower = l1 ++ ['v', 'a', 'r'] ++ l2)
    (hn : pyInt t = some n) (hu : pyInt u = none) :
    parseCredits (some s) = .ok (-1) ∧
    parseCredits (some t) = .ok n ∧
    parseCredits (some u) = .error .valueError := by
  have hvar : ("var".toList : List Char) = ['v', 'a', 'r'] := rfl
  have hv : lowerInStr "var" s = true := by
    rw [lowerInStr, hvar, containsSub_iff]
    exact h1
  have hnv : lowerInStr "var" t = false := by
    cases hb : lowerInStr "var" t with
    | false => rfl
    | true =>
      rw [lowerInStr, hvar, containsSub_iff] at hb
      exact absurd hb h2
  have hnu : lowerInStr "var" u = false := by
    cases hb : lowerInStr "var" u with
    | false => rfl
    | true =>
      rw [lowerInStr, hvar, containsSub_iff] at hb
      exact absurd hb h3
  refine ⟨?_, ?_, ?_⟩
  · simp [parseCredits, hv]
  · simp [parseCredits, hnv, hn]
  · simp [parseCredits, hnu, hu]

/-- Witness for C4 at the concrete cells VAR, 4 and TBD. -/
theorem credits_var_sentinel_witness :
    parseCredits (some "VAR") = .ok (-1) ∧
    parseCredits (some "4") = .ok 4 ∧
    parseCredits (some "TBD") = .error .valueError :=
  credits_var_sentinel "VAR" "4" "TBD" 4
    ⟨[], [], by decide⟩
    (fun hex =>
      absurd ((containsSub_iff ['v', 'a', 'r']
        ("4".toList.map Char.toLower)).mpr hex) (by decide))
    (fun hex =>
      absurd ((containsSub_iff ['v', 'a', 'r']
        ("TBD".toList.map Char.toLower)).mpr hex) (by decide))
    (by decide) (by decide)

/-! ## The grouped-index build -/

/-- One dict update shifts the lookup of the touched key by one appended
value and leaves every other key alone. -/
theorem dictGet_dictUpd {K V : Type} [DecidableEq K]
    (d : List (K × List V)) (k0 k : K) (v : V) :
    dictGet (dictUpd d k0 v) k
      = if k0 = k then some ((dictGet d k).getD [] ++ [v])
        else dictGet d k := by
  induction d with
  | nil =>
    by_cases h : k0 = k <;> simp [dictUpd, dictGet, h]
  | cons p rest ih =>
    obtain ⟨k1, vs⟩ := p
    by_cases h1 : k1 = k0
    · subst h1
      by_cases h2 : k1 = k
      · subst h2
        simp [dictUpd, dictGet]
      · simp [dictUpd, dictGet, h2]
    · by_cases h2 : k1 = k
      · subst h2
        have h3 : k0 ≠ k1 := fun h => h1 h.symm
        simp [dictUpd, dictGet, h1, h3]
      · simp [dictUpd, dictGet, h1, h2, ih]

/-- Folding the dict update over a pair list extends each key by exactly
the values grouped under that key, in their original order. -/
theorem dictGet_foldl {K V : Type} [DecidableEq K] [DecidableEq V]
    (l : List (K × V)) (d : List (K × List V)) (k : K) :
    dictGet (l.foldl (fun d p => dictUpd d p.1 p.2) d) k
      = match dictGet d k with
        | some vs => some (vs ++ pairsGroup l k)
        | none =>
            if pairsGroup l k = [] then none else some (pairsGroup l k) := by
  induction l generalizing d with
  | nil =>
    cases h : dictGet d k <;> simp [pairsGroup, h]
  | cons p t ih =>
    obtain ⟨kp, vp⟩ := p
    simp only [List.foldl_cons]
    rw [ih]
    by_cases hk : kp = k
    · subst hk
      rw [dictGet_dictUpd, if_pos rfl]
      have hg : pairsGroup ((kp, vp) :: t) kp = vp :: pairsGroup t kp := by
        simp [pairsGroup]
      cases h : dictGet d kp with
      | some vs => simp [h, hg]
      | none => simp [h, hg]
    · rw [dictGet_dictUpd, if_neg hk]
      have hg : pairsGroup ((kp, vp) :: t) k = pairsGroup t k := by
        simp [pairsGroup, hk]
      rw [hg]

/-- C3: the grouped-index build sends each key that occurs in the key list
to exactly the values that appeared with it, in their original relative
order, and no entry exists for a key with no values. -/
theorem parallel_lists_group (K V : Type) [DecidableEq K] [DecidableEq V]
    (keys : List K) (vals : List V) (k : K)
    (h : keys.length = vals.length) :
    dictGet (parallel_lists_to_tuple_dict keys vals) k
      = if groupSpec keys vals k = [] then none
        else some (groupSpec keys vals k) := by
  rw [parallel_lists_to_tuple_dict, dictGet_foldl]
  rfl

/-- Witness for C3 at the concrete example of the specification. -/
theorem parallel_lists_group_witness :
    dictGet (parallel_lists_to_tuple_dict ["a", "b", "a"] [1, 2, 3]) "a"
      = some [1, 3] ∧
    dictGet (parallel_lists_to_tuple_dict ["a", "b", "a"] [1, 2, 3]) "b"
      = some [2] := by
  constructor
  · rw [parallel_lists_group String Nat ["a", "b", "a"] [1, 2, 3] "a" rfl]
    decide
  · rw [parallel_lists_group String Nat ["a", "b", "a"] [1, 2, 3] "b" rfl]
    decide

/-! ## The assembly loop -/

/-- A successfully built Course carries the course code of its row and the
zero-or-one initial meeting produced by build_meeting. -/
theorem buildCourse_fields (c : String) (d : Row) (crs : Course)
    (h : buildCourse c d = .ok crs) :
    crs.course_code = c ∧ crs.meetings = (build_meeting d).toList := by
  rw [buildCourse] at h
  cases hcred : parseCredits d.cred with
  | error e => rw [hcred] at h; exact absurd h (by simp)
  | ok n =>
    rw [hcred] at h
    cases hins : parseInstructors d.instructors with
    | error e => rw [hins] at h; exact absurd h (by simp)
    | ok ins =>
      rw [hins] at h
      simp only [Except.ok.injEq] at h
      subst h
      refine ⟨rfl, ?_⟩
      cases hm : build_meeting d <;> simp [hm]

/-- Appending a meeting to the last record succeeds exactly on non-empty
lists and changes no course code. -/
theorem appendMeetingLast_codes (acc acc2 : List Course)
    (m : CourseMeeting) (h : appendMeetingLast acc m = some acc2) :
    acc2.map Course.course_code = acc.map Course.course_code := by
  induction acc generalizing acc2 with
  | nil => exact absurd h (by simp [appendMeetingLast])
  | cons c rest ih =>
    cases rest with
    | nil =>
      simp only [appendMeetingLast, Option.some.injEq] at h
      subst h
      rfl
    | cons c2 r2 =>
      simp only [appendMeetingLast, Option.map_eq_some'] at h
      obtain ⟨l, hl, rfl⟩ := h
      simp [ih l hl]

/-- Appending a meeting to the last record of a list ending in a known
record extends exactly the meetings of that record. -/
theorem appendMeetingLast_append (cs : List Course) (c : Course)
    (m : CourseMeeting) :
    appendMeetingLast (cs ++ [c]) m
      = some (cs ++ [{ c with meetings := c.meetings ++ [m] }]) := by
  induction cs with
  | nil => rfl
  | cons x xs ih =>
    cases xs with
    | nil => rfl
    | cons y ys =>
      have h3 : appendMeetingLast (x :: (y :: (ys ++ [c]))) m
          = (appendMeetingLast (y :: (ys ++ [c])) m).map
              (fun l => x :: l) := rfl
      simp only [List.cons_append] at ih ⊢
      rw [h3, ih]
      rfl

/-- One loop iteration extends the accumulated course codes by exactly the
course cell of the row: a primary row appends its code, a continuation
row leaves the codes unchanged. -/
theorem assembleStep_codes (acc acc2 : List Course) (d : Row)
    (h : assembleStep acc d = .ok acc2) :
    acc2.map Course.course_code
      = acc.map Course.course_code ++ d.course.toList := by
  cases hc : d.course with
  | some c =>
    cases hb : buildCourse c d with
    | error e =>
      simp only [assembleStep, hc, hb] at h
      exact Except.noConfusion h
    | ok crs =>
      simp only [assembleStep, hc, hb, Except.ok.injEq] at h
      subst h
      simp [(buildCourse_fields c d crs hb).1]
  | none =>
    cases hm : build_meeting d with
    | none =>
      simp only [assembleStep, hc, hm, Except.ok.injEq] at h
      subst h
      simp
    | some m =>
      cases ha : appendMeetingLast acc m with
      | none =>
        simp only [assembleStep, hc, hm, ha] at h
        exact Except.noConfusion h
      | some l =>
        simp only [assembleStep, hc, hm, ha, Except.ok.injEq] at h
        subst h
        simp [appendMeetingLast_codes acc l m ha]

/-- A successful run of the loop emits the accumulated codes followed by
the course cells of the primary rows, in input order. -/
theorem assembleAux_codes (rows : List Row) (acc out : List Course)
    (h : assembleAux acc rows = .ok out) :
    out.map Course.course_code
      = acc.map Course.course_code ++ rows.filterMap Row.course := by
  induction rows generalizing acc with
  | nil =>
    simp only [assembleAux, Except.ok.injEq] at h
    subst h
    simp
  | cons d rest ih =>
    rw [assembleAux] at h
    cases hs : assembleStep acc d with
    | error e => rw [hs] at h; exact absurd h (by simp)
    | ok acc2 =>
      rw [hs] at h
      rw [ih acc2 h, assembleStep_codes acc acc2 d hs]
      cases hc : d.course <;> simp [List.filterMap_cons, hc]

/-- The loop over a concatenation runs the first part and, on success,
continues with the second from the accumulated state; an exception in the
first part aborts everything, as in Python. -/
theorem assembleAux_append (xs ys : List Row) (acc : List Course) :
    assembleAux acc (xs ++ ys)
      = match assembleAux acc xs with
        | .ok acc2 => assembleAux acc2 ys
        | .error e => .error e := by
  induction xs generalizing acc with
  | nil => rfl
  | cons d rest ih =>
    simp only [List.cons_append, assembleAux]
    cases hs : assembleStep acc d with
    | ok acc2 => simp [ih]
    | error e => rfl

/-- Rows that are neither primary nor meeting-bearing leave the loop state
untouched. -/
theorem assembleAux_skip (pre : List Row) (acc : List Course)
    (hpre : ∀ d ∈ pre, d.course = none ∧ build_meeting d = none) :
    assembleAux acc pre = .ok acc := by
  induction pre with
  | nil => rfl
  | cons d rest ih =>
    obtain ⟨hc, hm⟩ := hpre d (by simp)
    rw [assembleAux]
    have hs : assembleStep acc d = .ok acc := by
      rw [assembleStep, hc, hm]
    rw [hs]
    exact ih (fun r hr => hpre r (by simp [hr]))

/-- C1: a successful assembly emits one record per primary row, in input
order, and a further meeting-bearing continuation row appends its meeting
to the most recently emitted record. -/
theorem assemble_primary_order (rows : List Row) (out : List Course)
    (r : Row) (m : CourseMeeting) (cs : List Course) (last : Course)
    (h1 : assemble rows = .ok out)
    (h2 : r.course = none)
    (h3 : build_meeting r = some m)
    (h4 : out = cs ++ [last]) :
    out.map Course.course_code = rows.filterMap Row.course ∧
    assemble (rows ++ [r])
      = .ok (cs ++ [{ last with meetings := last.meetings ++ [m] }]) := by
  rw [assemble] at h1
  constructor
  · simpa using assembleAux_codes rows [] out h1
  · rw [assemble, assembleAux_append, h1]
    subst h4
    have hs : assembleStep (cs ++ [last]) r
        = .ok (cs ++ [{ last with meetings := last.meetings ++ [m] }]) := by
      simp only [assembleStep, h2, h3]
      rw [appendMeetingLast_append]
    simp only [assembleAux]
    rw [hs]

/-- Witness for C1: the specification example of a MAC2313 primary row
followed by a Tuesday continuation row. -/
theorem assemble_primary_order_witness :
    [macCourse].map Course.course_code = [rowMAC].filterMap Row.course ∧
    assemble ([rowMAC] ++ [contRowT])
      = .ok ([] ++ [{ macCourse with
                      meetings := macCourse.meetings ++ [tMeeting] }]) :=
  assemble_primary_order [rowMAC] [macCourse] contRowT tMeeting []
    macCourse rfl rfl rfl rfl

/-- C5: a row builds a meeting exactly when its day cell is non-empty and
the lowered text lacks the token tba; a continuation row without a
meeting is dropped without error, and a primary row without one gets an
empty meetings list. -/
theorem meeting_tba_policy (d e p : Row) (acc : List Course) (c : String)
    (crs : Course)
    (he1 : e.course = none) (he2 : build_meeting e = none)
    (hp1 : p.course = some c) (hp2 : buildCourse c p = .ok crs)
    (hp3 : build_meeting p = none) :
    ((∃ m, build_meeting d = some m)
       ↔ (∃ s, d.days = some s ∧ lowerInStr "tba" s = false)) ∧
    assembleStep acc e = .ok acc ∧
    crs.meetings = [] := by
  refine ⟨?_, ?_, ?_⟩
  · cases hd : d.days with
    | none => simp [build_meeting, hd]
    | some s =>
      by_cases ht : lowerInStr "tba" s <;> simp [build_meeting, hd, ht]
  · rw [assembleStep, he1, he2]
  · rw [(buildCourse_fields c p crs hp2).2, hp3]
    rfl

/-- Witness for C5 at a TBA continuation row and a primary row with an
unscheduled pattern. -/
theorem meeting_tba_policy_witness :
    ((∃ m, build_meeting rowMAC = some m)
       ↔ (∃ s, rowMAC.days = some s ∧ lowerInStr "tba" s = false)) ∧
    assembleStep [] rowTBA = .ok [] ∧
    phyCourse.meetings = [] :=
  meeting_tba_policy rowMAC rowTBA primaryNoMeeting [] "PHY2048"
    phyCourse rfl rfl rfl rfl rfl

/-- C6: a meeting-bearing continuation row arriving before any primary
row aborts the whole assembly with the orphan-continuation failure. -/
theorem orphan_continuation (pre : List Row) (r : Row) (rest : List Row)
    (m : CourseMeeting)
    (hpre : ∀ d ∈ pre, d.course = none ∧ build_meeting d = none)
    (hr : r.course = none) (hm : build_meeting r = some m) :
    assemble (pre ++ r :: rest) = .error .orphanContinuation := by
  rw [assemble, assembleAux_append, assembleAux_skip pre [] hpre]
  have hs : assembleStep [] r = .error .orphanContinuation := by
    rw [assembleStep, hr, hm]
    rfl
  simp only [assembleAux]
  rw [hs]

/-- Witness for C6: a TBA continuation row, then a meeting-bearing
continuation row, then a valid primary row. -/
theorem orphan_continuation_witness :
    assemble ([rowTBA] ++ contRowT :: [rowMAC])
      = .error .orphanContinuation :=
  orphan_continuation [rowTBA] contRowT [rowMAC] tMeeting
    (by
      intro d hd
      rw [List.mem_singleton] at hd
      subst hd
      exact ⟨rfl, rfl⟩)
    rfl rfl

/-- C7 counterexample: the skip behavior that the claim attributes to a
configuration option produces a different result than the code. On a
primary row with an unparseable credit cell followed by a valid primary
row, the spec-modelled skip mode emits the valid record, while the code
(whose loop takes no such option) aborts the whole assembly and emits
nothing. -/
theorem no_skip_option_counterexample :
    assembleConfig true [badRow, rowMAC] = .ok [macCourse] ∧
    assembleConfig false [badRow, rowMAC]
      = .error (.rowError .valueError) ∧
    assemble [badRow, rowMAC] = .error (.rowError .valueError) :=
  ⟨rfl, rfl, rfl⟩

/-- The checked loop over a concatenation runs the first part and, on
success, continues with the second from the accumulated state; an
exception in the first part aborts everything, as in Python. -/
theorem assembleCheckedAux_append (xs ys : List Row) (acc : List Course) :
    assembleCheckedAux acc (xs ++ ys)
      = match assembleCheckedAux acc xs with
        | .ok acc2 => assembleCheckedAux acc2 ys
        | .error e => .error e := by
  induction xs generalizing acc with
  | nil => rfl
  | cons d rest ih =>
    simp only [List.cons_append, assembleCheckedAux]
    cases hs : assembleStepChecked acc d with
    | ok acc2 => simp [ih]
    | error e => rfl

/-- C7 amended: a primary row whose credit field fails to parse, or whose
course-code field fails to parse once its credit and instructor cells
went through, raises its row-scoped error and aborts the whole assembly
whatever rows follow; the code offers no configuration option, so
aborting is its only behavior. -/
theorem row_parse_abort (rows : List Row) (acc : List Course)
    (d d2 : Row) (rest rest2 : List Row) (c c2 : String) (e e2 : RowError)
    (hpre : assembleCheckedAux [] rows = .ok acc)
    (hc : d.course = some c)
    (hcred : parseCredits d.cred = .error e)
    (hc2 : d2.course = some c2)
    (hcred2 : ∃ n, parseCredits d2.cred = .ok n)
    (hins2 : ∃ l, parseInstructors d2.instructors = .ok l)
    (hcode2 : parseCourseCode c2 = .error e2) :
    assembleChecked (rows ++ d :: rest) = .error (.rowError e) ∧
    assembleChecked (rows ++ d2 :: rest2) = .error (.rowError e2) := by
  constructor
  · rw [assembleChecked, assembleCheckedAux_append, hpre]
    have hb : buildCourse c d = .error e := by
      simp only [buildCourse, hcred]
    have hbc : buildCourseChecked c d = .error e := by
      simp only [buildCourseChecked, hb]
    have hs : assembleStepChecked acc d = .error (.rowError e) := by
      simp only [assembleStepChecked, hc, hbc]
    simp only [assembleCheckedAux]
    rw [hs]
  · rw [assembleChecked, assembleCheckedAux_append, hpre]
    obtain ⟨n, hn⟩ := hcred2
    obtain ⟨l, hl⟩ := hins2
    cases hb2 : buildCourse c2 d2 with
    | error e3 =>
      simp only [buildCourse, hn, hl] at hb2
      exact Except.noConfusion hb2
    | ok crs =>
      have hbc2 : buildCourseChecked c2 d2 = .error e2 := by
        simp only [buildCourseChecked, hb2, hcode2]
      have hs : assembleStepChecked acc d2 = .error (.rowError e2) := by
        simp only [assembleStepChecked, hc2, hbc2]
      simp only [assembleCheckedAux]
      rw [hs]

/-- Witness for C7 amended: the unparseable credit row and the
unparseable course-code row each abort even with a valid row behind. -/
theorem row_parse_abort_witness :
    assembleChecked ([] ++ badRow :: [rowMAC])
      = .error (.rowError .valueError) ∧
    assembleChecked ([] ++ badCodeRow :: [rowMAC])
      = .error (.rowError .valueError) :=
  row_parse_abort [] [] badRow badCodeRow [rowMAC] [rowMAC]
    "XXX1000" "BAD" RowError.valueError RowError.valueError
    rfl rfl rfl rfl ⟨3, rfl⟩ ⟨["STAFF"], rfl⟩ rfl

end CourseListings
